import Mathlib

/-!
Verification development for the verifyshuho reconciliation program
(src/verifyshuho.go).  The Go source is shallowly embedded below:

* Go `time.Time` values occurring in the program are always midnights
  produced by `getDate`, so an instant is modelled as an `Int` day
  number (days since the civil epoch 1970-01-01).  `AddDate(0, 0, n)`
  on such an instant is `+ n`, `After` is `>` and `Before` is `<`.
  Calendar accessors (`Year`, `YearDay`) and `time.Date` construction
  are modelled with the standard civil-calendar conversions
  `daysFromCivil` / `civilFromDays` (proleptic Gregorian, exactly the
  calendar Go's time package implements; `time.Date` normalizes an
  out-of-range day of month, and `daysFromCivil` is linear in the day
  argument, so it normalizes identically).
* Go slices of entries are modelled as `List`; where nil-ness of a
  slice matters it is modelled as `Option (List _)` with `none` for a
  nil slice.
* Row access `row[i]` is modelled as `cell row i` which defaults to
  `""` out of range.  In Go an out-of-range access panics; no accepted
  row and no input used in a theorem below performs such an access.
* Fallible code returns `Option` / `Except`: `getDate` returns `none`
  where the Go function calls `os.Exit(2)`, and the row parsers return
  `Except.error ()` when a row makes `getDate` exit.
* The process-global `time.Now()` is threaded through as an explicit
  `today : Int` day-number parameter.
-/

/-! ## Civil calendar model (Go time package arithmetic) -/

/-- Leap year test of the proleptic Gregorian calendar (as in Go's
`isLeap`). -/
def isLeapYear (y : Int) : Bool :=
  Int.emod y 4 == 0 && (Int.emod y 100 != 0 || Int.emod y 400 == 0)

/-- Number of days in a month (month `m` in `1..12`) of year `y`. -/
def daysInMonth (y m : Int) : Int :=
  if m == 2 then (if isLeapYear y then 29 else 28)
  else if m == 4 || m == 6 || m == 9 || m == 11 then 30
  else 31

/-- Day number (days since 1970-01-01) of the civil date `(y, m, d)`;
the standard civil-from-date conversion.  It is linear in `d`, so an
out-of-range day normalizes exactly as Go's `time.Date` does. -/
def daysFromCivil (y m d : Int) : Int :=
  let yAdj := if m ≤ 2 then y - 1 else y
  let era := Int.ediv yAdj 400
  let yoe := yAdj - era * 400
  let mp := Int.emod (m + 9) 12
  let doy := Int.ediv (153 * mp + 2) 5 + d - 1
  let doe := yoe * 365 + Int.ediv yoe 4 - Int.ediv yoe 100 + doy
  era * 146097 + doe - 719468

/-- Civil date `(y, m, d)` of a day number; inverse of
`daysFromCivil` on valid dates. -/
def civilFromDays (z0 : Int) : Int × Int × Int :=
  let z := z0 + 719468
  let era := Int.ediv z 146097
  let doe := z - era * 146097
  let yoe :=
    Int.ediv (doe - Int.ediv doe 1460 + Int.ediv doe 36524 - Int.ediv doe 146097) 365
  let y := yoe + era * 400
  let doy := doe - (365 * yoe + Int.ediv yoe 4 - Int.ediv yoe 100)
  let mp := Int.ediv (5 * doy + 2) 153
  let d := doy - Int.ediv (153 * mp + 2) 5 + 1
  let m := if mp < 10 then mp + 3 else mp - 9
  (if m ≤ 2 then y + 1 else y, m, d)

/-- `Year()` of a day-number instant. -/
def yearOf (t : Int) : Int := (civilFromDays t).1

/-- `YearDay()` of a day-number instant (1-based ordinal day of its
year). -/
def yearDayOf (t : Int) : Int := t - daysFromCivil (yearOf t) 1 1 + 1

/-- `YearDay()` of the civil date `(y, m, d)` without going through a
day number; used for the partially parsed date, which carries year 0
(Go's zero year for a layout without a year). -/
def yearDayCivil (y m d : Int) : Int :=
  daysFromCivil y m d - daysFromCivil y 1 1 + 1

/-! ## Data model (verifyshuho.go struct types and methods) -/

/-- Ledger entry (Go struct `InvoiceEntry`); `IDate` is the
day-number model of the Go `time.Time` field. -/
structure InvoiceEntry where
  rowNum : String
  IDate : Int
  ICaseNum : String
  IType : String
  IWordCount : String
  rate : String
deriving DecidableEq

/-- Work-log entry (Go struct `ShuhoEntry`). -/
structure ShuhoEntry where
  SDate : Int
  SCaseNum : String
  SType : String
  SCWordCount : String
  STWordCount : String
  SAuthor : String
deriving DecidableEq

/-- Go `getShuhoEntryWordCount`: resolve the word count of a log entry
from the field selected by its work type; an unrecognized type yields
the string UNKNOWN. -/
def getShuhoEntryWordCount (e : ShuhoEntry) : String :=
  match e.SType with
  | "翻訳" => e.STWordCount
  | "英文チェック" => e.SCWordCount
  | _ => "UNKNOWN"

/-- Go method `(e InvoiceEntry) signature()`:
`fmt.Sprintf("%s %s %s", e.ICaseNum, e.IType, e.IWordCount)`. -/
def InvoiceEntry.signature (e : InvoiceEntry) : String :=
  e.ICaseNum ++ " " ++ e.IType ++ " " ++ e.IWordCount

/-- Go method `(e ShuhoEntry) signature()`. -/
def ShuhoEntry.signature (e : ShuhoEntry) : String :=
  e.SCaseNum ++ " " ++ e.SType ++ " " ++ getShuhoEntryWordCount e

/-- The Go interface `Entry`, realized by the two structs; modelled as
a sum. -/
inductive Entry where
  | inv (e : InvoiceEntry)
  | shu (e : ShuhoEntry)
deriving DecidableEq

/-- Dynamic dispatch of `signature()`. -/
def Entry.signature : Entry → String
  | .inv e => e.signature
  | .shu e => e.signature

/-- Dynamic dispatch of `Type()` (named `etype` because `Type` is a
Lean keyword). -/
def Entry.etype : Entry → String
  | .inv e => e.IType
  | .shu e => e.SType

/-- Dynamic dispatch of `Date()` (day number). -/
def Entry.dateOf : Entry → Int
  | .inv e => e.IDate
  | .shu e => e.SDate

/-- Dynamic dispatch of `Rate()`; a log entry answers the empty
string. -/
def Entry.rateStr : Entry → String
  | .inv e => e.rate
  | .shu _ => ""

/-- Dynamic dispatch of `WordCount()`. -/
def Entry.wordCount : Entry → String
  | .inv e => e.IWordCount
  | .shu e => getShuhoEntryWordCount e

/-- Case-number projection (per-struct field access; the Go interface
does not expose it but both structs carry it). -/
def Entry.caseNum : Entry → String
  | .inv e => e.ICaseNum
  | .shu e => e.SCaseNum

/-- Number of entries of a list whose signature equals `sig` (the
inner loops of the duplicate and cross-set checks). -/
def countSig (entries : List Entry) (sig : String) : Nat :=
  entries.countP (fun e => e.signature == sig)

/-! ## Date resolution (getDate, thisYearOrLastYear) -/

/-- Split a leading run of ASCII digits off a character list. -/
def takeDigits (cs : List Char) : List Char × List Char :=
  (cs.takeWhile Char.isDigit, cs.dropWhile Char.isDigit)

/-- Numeric value of a digit list (most significant first). -/
def digitsVal (cs : List Char) : Int :=
  cs.foldl (fun acc c => acc * 10 + (Int.ofNat c.toNat - 48)) 0

/-- Model of Go `time.Parse("01-02-06", s)`: exactly two digits for
month, day and two-digit year; Go maps a two-digit year 69..99 to
19xx and 00..68 to 20xx, and rejects an out-of-range month or day. -/
def parseMMDDYY (s : String) : Option (Int × Int × Int) :=
  match s.data with
  | [m1, m2, '-', d1, d2, '-', y1, y2] =>
    if m1.isDigit && m2.isDigit && d1.isDigit && d2.isDigit && y1.isDigit && y2.isDigit then
      let mm := digitsVal [m1, m2]
      let dd := digitsVal [d1, d2]
      let yy := digitsVal [y1, y2]
      let y := if yy ≥ 69 then 1900 + yy else 2000 + yy
      if 1 ≤ mm && mm ≤ 12 && 1 ≤ dd && dd ≤ daysInMonth y mm then
        some (y, mm, dd)
      else none
    else none
  | _ => none

/-- Model of Go `time.Parse("1/2", s)`: one or two digits for month,
a slash, one or two digits for day, nothing after; the year defaults
to Go's zero year 0, in which the day range is validated (year 0 is a
leap year). -/
def parseMD (s : String) : Option (Int × Int) :=
  let (ms, r1) := takeDigits s.data
  if ms.length == 0 || ms.length > 2 then none
  else match r1 with
    | '/' :: r2 =>
      let (ds, r3) := takeDigits r2
      if ds.length == 0 || ds.length > 2 || !r3.isEmpty then none
      else
        let mm := digitsVal ms
        let dd := digitsVal ds
        if 1 ≤ mm && mm ≤ 12 && 1 ≤ dd && dd ≤ daysInMonth 0 mm then
          some (mm, dd)
        else none
    | _ => none

/-- Go `thisYearOrLastYear`, with `time.Now()` made explicit as the
day number `today`.  The partially parsed date carries year 0, so its
`YearDay()` is `yearDayCivil 0 m d`; the result is
`time.Date(MyYear, month, day, ...)`, i.e. `daysFromCivil MyYear m d`. -/
def thisYearOrLastYear (today m d : Int) : Int :=
  let myYear :=
    if yearDayCivil 0 m d ≤ yearDayOf (today + 7) then yearOf today
    else yearOf (today + 7) - 1
  daysFromCivil myYear m d

/-- Go `getDate`: try the full `01-02-06` layout, then the partial
`1/2` layout with the year heuristic; `none` models the fatal
`os.Exit(2)` on a string matching neither layout. -/
def getDate (today : Int) (s : String) : Option Int :=
  match parseMMDDYY s with
  | some (y, m, d) => some (daysFromCivil y m d)
  | none => (parseMD s).map (fun p => thisYearOrLastYear today p.1 p.2)

/-! ## Field validation and normalization helpers -/

/-- Model of the Go regexp match against `\d+-\d+-\d+$` (an
unanchored-at-the-start suffix match): the string ends in
digits-dash-digits-dash-digits. -/
def matchesInvoiceDate (s : String) : Bool :=
  let r := s.data.reverse
  let (a, r1) := takeDigits r
  if a.isEmpty then false
  else match r1 with
    | '-' :: r2 =>
      let (b, r3) := takeDigits r2
      if b.isEmpty then false
      else match r3 with
        | '-' :: r4 => !(takeDigits r4).1.isEmpty
        | _ => false
    | _ => false

/-- Go `checkForValidDate`: anchored match against `^(?i)\d+/\d+$`. -/
def checkForValidDate (dateField : String) : Bool :=
  let (a, r1) := takeDigits dateField.data
  if a.isEmpty then false
  else match r1 with
    | '/' :: r2 =>
      let (b, r3) := takeDigits r2
      !b.isEmpty && r3.isEmpty
    | _ => false

/-- Go `checkForEmptyCase`, verbatim: `match` is the anchored
case-insensitive match of the case field against `ALP-` (modelled by
lower-casing), and the function returns `match && (caseField == "")`.
The conjunction is unsatisfiable, so this function is constantly
false; see the theorem for claim C2. -/
def checkForEmptyCase (caseField : String) : Bool :=
  let mtch := caseField.data.map Char.toLower == ['a', 'l', 'p', '-']
  mtch && (caseField == "")

/-- Go `strings.ReplaceAll(s, ",", "")`. -/
def stripCommas (s : String) : String :=
  ⟨s.data.filter (fun c => !(c == ','))⟩

/-- Go `strings.ReplaceAll(s, " ", "")`. -/
def stripSpaces (s : String) : String :=
  ⟨s.data.filter (fun c => !(c == ' '))⟩

/-- Row access `row[i]`, defaulting to the empty string out of range
(Go would panic there; no accepted row and no input used below reaches
an out-of-range access). -/
def cell (row : List String) (i : Nat) : String := row.getD i ""

/-- Go `rowNotComplete`: a ledger row is incomplete when one of the
six required cells is empty, or the case cell is the placeholder. -/
def rowNotComplete (row : List String) : Bool :=
  if (cell row 0 == "") || (cell row 3 == "") || (cell row 1 == "") ||
     (cell row 2 == "") || (cell row 4 == "") || (cell row 5 == "") then
    true
  else checkForEmptyCase (cell row 1)

/-! ## Row parsers (parseInvoice, parseShuho) -/

/-- One iteration of the row loop of Go `parseInvoice`:
`Except.error ()` models the fatal exit inside `getDate`, `.ok none`
a skipped row, `.ok (some e)` an appended entry. -/
def processInvoiceRow (today : Int) (row : List String) :
    Except Unit (Option InvoiceEntry) :=
  if row.length < 5 then .ok none
  else if rowNotComplete row then .ok none
  else if !matchesInvoiceDate (cell row 3) then .ok none
  else if row.length > 5 then
    match getDate today (cell row 3) with
    | none => .error ()
    | some dt =>
      .ok (some
        { rowNum := cell row 0
          IDate := dt
          ICaseNum := stripCommas (cell row 1)
          IType := cell row 2
          IWordCount := stripSpaces (stripCommas (cell row 4))
          rate := cell row 5 })
  else .ok none

/-- Go `parseInvoice` over the raw rows of the ledger sheet (sheet
selection and row extraction are the external collaborator).  The
returned slice is allocated with `make`, hence never nil even when
empty; `parseInvoiceSlice` below models that nil-ness. -/
def parseInvoice (today : Int) : List (List String) → Except Unit (List InvoiceEntry)
  | [] => .ok []
  | row :: rest =>
    match processInvoiceRow today row with
    | .error e => .error e
    | .ok none => parseInvoice today rest
    | .ok (some ie) =>
      match parseInvoice today rest with
      | .error e => .error e
      | .ok es => .ok (ie :: es)

/-- Go slices distinguish nil from empty; `parseInvoice` always
returns the non-nil slice it allocated, modelled by wrapping the list
in `some`.  The guard in `main`, `invoiceEntries == nil`, only
rejects `none`. -/
def parseInvoiceSlice (today : Int) (rows : List (List String)) :
    Except Unit (Option (List InvoiceEntry)) :=
  (parseInvoice today rows).map some

/-- The nil test in `main` (`shuhoEntries == nil || invoiceEntries == nil`)
applied to one parsed slice. -/
def mainNilGuard (entries : Option (List InvoiceEntry)) : Bool :=
  entries.isNone

/-- One iteration of the row loop of Go `parseShuho`. -/
def processShuhoRow (today : Int) (row : List String) :
    Except Unit (Option ShuhoEntry) :=
  if row.length < 6 then .ok none
  else if !checkForValidDate (cell row 0) then .ok none
  else if checkForEmptyCase (cell row 1) then .ok none
  else if (cell row 2 == "") || (cell row 6 == "") then .ok none
  else if (cell row 3 == "") && (cell row 4 == "") then .ok none
  else
    match getDate today (cell row 0) with
    | none => .error ()
    | some dt =>
      .ok (some
        { SDate := dt
          SCaseNum := stripCommas (cell row 1)
          SType := cell row 2
          SCWordCount := stripSpaces (stripCommas (cell row 3))
          STWordCount := stripSpaces (stripCommas (cell row 4))
          SAuthor := cell row 6 })

/-- The row loop of Go `parseShuho` over one sheet. -/
def parseShuhoRows (today : Int) : List (List String) → Except Unit (List ShuhoEntry)
  | [] => .ok []
  | row :: rest =>
    match processShuhoRow today row with
    | .error e => .error e
    | .ok none => parseShuhoRows today rest
    | .ok (some se) =>
      match parseShuhoRows today rest with
      | .error e => .error e
      | .ok es => .ok (se :: es)

/-- Sheet recursion of Go `parseShuho` (after the template sheet has
been dropped): entries of all sheets are appended in order. -/
def parseShuhoSheetsAux (today : Int) : List (List (List String)) → Except Unit (List ShuhoEntry)
  | [] => .ok []
  | sheet :: rest =>
    match parseShuhoRows today sheet with
    | .error e => .error e
    | .ok es =>
      match parseShuhoSheetsAux today rest with
      | .error e => .error e
      | .ok more => .ok (es ++ more)

/-- Go `parseShuho`: the first sheet of the work-log source is the
template and is skipped (`index == 0`); all other sheets are
scanned. -/
def parseShuho (today : Int) (sheets : List (List (List String))) :
    Except Unit (List ShuhoEntry) :=
  parseShuhoSheetsAux today (sheets.drop 1)

/-! ## Scope filter and validators -/

/-- Go `getScopedShuho`.  The Go function unconditionally reads
`ientries[0]` and `ientries[len(ientries)-1]`; on an empty ledger
list both index expressions panic, modelled by `none`.  The filter
keeps a log entry when its date is after `startDate.AddDate(0,0,-1)`
and before `endDate.AddDate(0,0,1)`. -/
def getScopedShuho (sentries ientries : List Entry) : Option (List Entry) :=
  match ientries with
  | [] => none
  | e :: rest =>
    let startDate := e.dateOf
    let endDate := (rest.getLastD e).dateOf
    some (sentries.filter (fun x =>
      decide (startDate - 1 < x.dateOf) && decide (x.dateOf < endDate + 1)))

/-- Go `ensureNoDuplicateInvoiceEntries`.  The loop recomputes
`copies` for each entry, but the test `copies != 1` sits after the
loop, so only the count belonging to the final list element survives
(0 when the list is empty).  Result: (success flag, surfaced entry);
on failure Go prints the final list element (a nil dereference when
the list is empty, modelled by `none`). -/
def ensureNoDuplicateInvoiceEntries (entries : List Entry) : Bool × Option Entry :=
  let copies :=
    match entries.getLast? with
    | none => 0
    | some e => countSig entries e.signature
  if copies == 1 then (true, none) else (false, entries.getLast?)

/-- Mismatch test of one iteration of Go `ensureRatesAreCorrect`:
rate "18" demands the translation type, rate "1.4" the check type,
any other rate is unchecked. -/
def rateEntryBad (e : Entry) : Bool :=
  if e.rateStr == "18" then !(e.etype == "翻訳")
  else if e.rateStr == "1.4" then !(e.etype == "英文チェック")
  else false

/-- Go `ensureRatesAreCorrect`: counts mismatches over all entries;
on failure it prints the final loop variable, i.e. the last element
of the list, whether or not that entry mismatches. -/
def ensureRatesAreCorrect (entries : List Entry) : Bool × Option Entry :=
  let errors := entries.countP rateEntryBad
  if errors == 0 then (true, none) else (false, entries.getLast?)

/-- Go `ensureShuhoEntriesAreInShuho`: over the scoped log entries,
report each whose signature count among ledger entries differs from
one; success is announced when no entry was reported.  `none` models
the panic of `getScopedShuho` on an empty ledger list. -/
def ensureShuhoEntriesAreInShuho (sentries ientries : List Entry) :
    Option (List Entry × Bool) :=
  (getScopedShuho sentries ientries).map (fun sse =>
    let errs := sse.filter (fun se => !(countSig ientries se.signature == 1))
    (errs, errs.length == 0))

/-! ## Aggregator (sumEntries) -/

/-- Modelled from the spec words of 4.4: the earliest ledger date
(the code instead reads the date of the first list element). -/
def specEarliestDate (ientries : List Entry) : Option Int :=
  (ientries.map Entry.dateOf).min?

/-- Modelled from the spec words of 4.4: the latest ledger date (the
code instead reads the date of the last list element). -/
def specLatestDate (ientries : List Entry) : Option Int :=
  (ientries.map Entry.dateOf).max?

/-- Spec-side reading of "parses as a finite non-negative number":
an unsigned decimal literal, i.e. digits with at most one decimal
point and at least one digit. -/
def isNonNegNumeral (s : String) : Bool :=
  s.data.any Char.isDigit &&
  s.data.all (fun c => c.isDigit || c == '.') &&
  decide (s.data.countP (fun c => c == '.') ≤ 1)

/-- Shape of a raw word-count cell that guarantees a parsable word
count after normalization: only digits, thousands-separator commas
and spaces, with at least one digit. -/
def wordFieldShape (s : String) : Bool :=
  s.data.all (fun c => c.isDigit || c == ',' || c == ' ') &&
  s.data.any Char.isDigit

/-! ## Concrete data used by the closed theorems and witnesses -/

/-- A fixed reference date for `time.Now()`: 2023-06-30. -/
def todayJun30 : Int := daysFromCivil 2023 6 30

/-- Ledger entry with signature A-translation-100. -/
def dupA : Entry :=
  .inv { rowNum := "1", IDate := 100, ICaseNum := "A", IType := "翻訳", IWordCount := "100", rate := "18" }

/-- Second ledger entry with the same signature as `dupA` (different
row and date). -/
def dupA2 : Entry :=
  .inv { rowNum := "2", IDate := 101, ICaseNum := "A", IType := "翻訳", IWordCount := "100", rate := "18" }

/-- Ledger entry with a unique signature, placed last. -/
def uniqB : Entry :=
  .inv { rowNum := "3", IDate := 102, ICaseNum := "B", IType := "翻訳", IWordCount := "200", rate := "18" }

/-- Raw ledger row whose case cell is the placeholder marker and all
other fields are valid. -/
def alpLedgerRow : List String := ["1", "ALP-", "翻訳", "01-02-23", "100", "18"]

/-- Raw work-log row whose case cell is the placeholder marker and all
other fields are valid. -/
def alpLogRow : List String := ["6/20", "ALP-", "翻訳", "", "100", "x", "auth"]

/-- Ledger entry with the later date, listed first. -/
def ledgerLate : Entry :=
  .inv { rowNum := "1", IDate := 10, ICaseNum := "A", IType := "翻訳", IWordCount := "100", rate := "18" }

/-- Ledger entry with the earlier date, listed last. -/
def ledgerEarly : Entry :=
  .inv { rowNum := "2", IDate := 5, ICaseNum := "B", IType := "翻訳", IWordCount := "200", rate := "18" }

/-- Log entry dated on the earliest ledger date. -/
def logEarly : Entry :=
  .shu { SDate := 5, SCaseNum := "B", SType := "翻訳", SCWordCount := "", STWordCount := "200", SAuthor := "a" }

/-- Ledger entry with rate 18 but the check type: a rate mismatch. -/
def rateBadE : Entry :=
  .inv { rowNum := "1", IDate := 0, ICaseNum := "A", IType := "英文チェック", IWordCount := "100", rate := "18" }

/-- Compliant ledger entry (rate 18, translation type), placed last. -/
def rateGoodE : Entry :=
  .inv { rowNum := "2", IDate := 0, ICaseNum := "B", IType := "翻訳", IWordCount := "200", rate := "18" }

/-- Entry whose case number contains a space. -/
def spacedCase : Entry :=
  .inv { rowNum := "1", IDate := 0, ICaseNum := "a b", IType := "c", IWordCount := "1", rate := "18" }

/-- Entry with different case number and type but the same signature
as `spacedCase`. -/
def plainCase : Entry :=
  .inv { rowNum := "2", IDate := 0, ICaseNum := "a", IType := "b c", IWordCount := "1", rate := "18" }

/-- Entry for the signature witness, date 5. -/
def sigW1 : Entry :=
  .inv { rowNum := "1", IDate := 5, ICaseNum := "A", IType := "翻訳", IWordCount := "100", rate := "18" }

/-- Entry identical to `sigW1` in the three signature fields but with
a different date and row. -/
def sigW2 : Entry :=
  .inv { rowNum := "2", IDate := 9, ICaseNum := "A", IType := "翻訳", IWordCount := "100", rate := "18" }

/-- Both signature methods are the space-join of the three projected
fields. -/
theorem signature_eq_proj (e : Entry) :
    e.signature = e.caseNum ++ " " ++ e.etype ++ " " ++ e.wordCount := by
  cases e <;> rfl

/-- Splitting at a separator character is unambiguous when the prefix
lists do not contain it. -/
theorem noSpace_append_inj (a x b y : List Char)
    (ha : ∀ c ∈ a, c ≠ ' ') (hb : ∀ c ∈ b, c ≠ ' ')
    (h : a ++ ' ' :: x = b ++ ' ' :: y) : a = b ∧ x = y := by
  induction a generalizing b with
  | nil =>
    cases b with
    | nil => simpa using h
    | cons c bs =>
      simp only [List.nil_append, List.cons_append, List.cons.injEq] at h
      exact absurd h.1.symm (hb c (by simp))
  | cons c as ih =>
    cases b with
    | nil =>
      simp only [List.cons_append, List.nil_append, List.cons.injEq] at h
      exact absurd h.1 (ha c (by simp))
    | cons c2 bs =>
      simp only [List.cons_append, List.cons.injEq] at h
      obtain ⟨hc, hrest⟩ := h
      have hres := ih bs (fun d hd => ha d (by simp [hd])) (fun d hd => hb d (by simp [hd])) hrest
      exact ⟨by rw [hc, hres.1], hres.2⟩

/-- Character-level decomposition of a signature. -/
theorem signature_data (e : Entry) :
    (Entry.signature e).data =
      e.caseNum.data ++ ' ' :: (e.etype.data ++ ' ' :: e.wordCount.data) := by
  rw [signature_eq_proj]
  have hsp : (" " : String).data = [' '] := rfl
  simp [String.data_append, hsp]

/-- A per-entry characterization of passing the rate check. -/
theorem rateEntryBad_false_iff (e : Entry) :
    rateEntryBad e = false ↔
      ((e.rateStr = "18" → e.etype = "翻訳") ∧
       (e.rateStr = "1.4" → e.etype = "英文チェック")) := by
  have hne : ("18" : String) ≠ "1.4" := by decide
  by_cases h18 : e.rateStr = "18"
  · simp [rateEntryBad, h18, hne]
  · by_cases h14 : e.rateStr = "1.4"
    · simp [rateEntryBad, h18, h14]
    · simp [rateEntryBad, h18, h14]

/-- The emptiness test on the reported-error list agrees with the
universally quantified success condition. -/
theorem errsLength_eq_decide (ientries l : List Entry) :
    ((l.filter (fun se => !(countSig ientries se.signature == 1))).length == 0) =
      decide (∀ se ∈ l, countSig ientries se.signature = 1) := by
  by_cases hall : ∀ se ∈ l, countSig ientries se.signature = 1
  · have hnil : l.filter (fun se => !(countSig ientries se.signature == 1)) = [] := by
      apply List.filter_eq_nil_iff.mpr
      intro a ha
      simp [hall a ha]
    simp only [hnil, List.length_nil]
    simp [hall]
    exact hall
  · have hdec : decide (∀ se ∈ l, countSig ientries se.signature = 1) = false :=
      decide_eq_false hall
    push_neg at hall
    obtain ⟨se, hmem, hne⟩ := hall
    have hin : se ∈ l.filter (fun se => !(countSig ientries se.signature == 1)) :=
      List.mem_filter.mpr ⟨hmem, by simp [hne]⟩
    have hlen : (l.filter (fun se => !(countSig ientries se.signature == 1))).length ≠ 0 := by
      intro h0
      rw [List.length_eq_zero] at h0
      rw [h0] at hin
      simp at hin
    rw [hdec]
    simpa using hlen

/-- Membership in a stripped word-count string. -/
theorem mem_strip_data (s : String) (c : Char) :
    c ∈ (stripSpaces (stripCommas s)).data ↔
      (c ∈ s.data ∧ c ≠ ',' ∧ c ≠ ' ') := by
  show c ∈ (s.data.filter (fun c => !(c == ','))).filter (fun c => !(c == ' ')) ↔ _
  simp [List.mem_filter, and_assoc]
  tauto

/-- Stripping commas and spaces from a digits-commas-spaces cell
leaves an unsigned numeral. -/
theorem wordFieldShape_numeral (s : String) (h : wordFieldShape s = true) :
    isNonNegNumeral (stripSpaces (stripCommas s)) = true := by
  unfold wordFieldShape at h
  simp only [Bool.and_eq_true, List.all_eq_true, List.any_eq_true] at h
  obtain ⟨hall, c0, hc0, hc0d⟩ := h
  unfold isNonNegNumeral
  simp only [Bool.and_eq_true, List.all_eq_true, List.any_eq_true, decide_eq_true_eq]
  have hdig : ∀ c ∈ (stripSpaces (stripCommas s)).data, c.isDigit = true := by
    intro c hc
    obtain ⟨hcl, hcm, hsp⟩ := (mem_strip_data s c).mp hc
    have := hall c hcl
    simp only [Bool.or_eq_true, beq_iff_eq] at this
    rcases this with (hd | hcomma) | hspace
    · exact hd
    · exact absurd hcomma hcm
    · exact absurd hspace hsp
  refine ⟨⟨⟨c0, ?_, hc0d⟩, ?_⟩, ?_⟩
  · apply (mem_strip_data s c0).mpr
    refine ⟨hc0, ?_, ?_⟩
    · intro hcc; subst hcc; exact absurd hc0d (by decide)
    · intro hcc; subst hcc; exact absurd hc0d (by decide)
  · intro c hc
    simp [hdig c hc]
  · have h0 : (stripSpaces (stripCommas s)).data.countP (fun c => c == '.') = 0 := by
      apply List.countP_eq_zero.mpr
      intro c hc
      have := hdig c hc
      by_cases hcc : c = '.'
      · subst hcc; exact absurd this (by decide)
      · simp [hcc]
    simp [h0]

/-- A normalized ledger entry stores the comma- and space-stripped
raw word-count cell. -/
theorem processInvoiceRow_wordCount (today : Int) (row : List String) (ie : InvoiceEntry)
    (h : processInvoiceRow today row = .ok (some ie)) :
    ie.IWordCount = stripSpaces (stripCommas (cell row 4)) := by
  unfold processInvoiceRow at h
  split at h
  · simp at h
  split at h
  · simp at h
  split at h
  · simp at h
  split at h
  · split at h
    · simp at h
    · simp only [Except.ok.injEq, Option.some.injEq] at h
      subst h
      rfl
  · simp at h

/-- Every entry of a parsed ledger set has a numeric word count when
every raw word-count cell has the digits-commas-spaces shape. -/
theorem parseInvoice_wordShape (today : Int) (rows : List (List String))
    (h : ∀ row ∈ rows, wordFieldShape (cell row 4) = true) :
    ∀ es, parseInvoice today rows = .ok es →
      ∀ e ∈ es, isNonNegNumeral e.IWordCount = true := by
  induction rows with
  | nil =>
    intro es hes e he
    simp only [parseInvoice, Except.ok.injEq] at hes
    subst hes
    simp at he
  | cons row rest ih =>
    intro es hes e he
    unfold parseInvoice at hes
    cases hp : processInvoiceRow today row with
    | error u => rw [hp] at hes; simp at hes
    | ok o =>
      rw [hp] at hes
      cases o with
      | none =>
        exact ih (fun r hr => h r (by simp [hr])) es hes e he
      | some ie =>
        cases hr : parseInvoice today rest with
        | error u => rw [hr] at hes; simp at hes
        | ok es2 =>
          rw [hr] at hes
          simp only [Except.ok.injEq] at hes
          subst hes
          rcases List.mem_cons.mp he with he1 | he2
          · subst he1
            rw [processInvoiceRow_wordCount today row e hp]
            exact wordFieldShape_numeral _ (h row (by simp))
          · exact ih (fun r hr => h r (by simp [hr])) es2 hr e he2

/-- Field contents of a normalized log entry. -/
theorem processShuhoRow_fields (today : Int) (row : List String) (se : ShuhoEntry)
    (h : processShuhoRow today row = .ok (some se)) :
    se.SType = cell row 2 ∧
    se.SCWordCount = stripSpaces (stripCommas (cell row 3)) ∧
    se.STWordCount = stripSpaces (stripCommas (cell row 4)) := by
  unfold processShuhoRow at h
  split at h
  · simp at h
  split at h
  · simp at h
  split at h
  · simp at h
  split at h
  · simp at h
  split at h
  · simp at h
  split at h
  · simp at h
  · simp only [Except.ok.injEq, Option.some.injEq] at h
    subst h
    exact ⟨rfl, rfl, rfl⟩

/-- A normalized log row with a recognized type and a well-shaped
selected word-count cell resolves to a numeric word count. -/
theorem shuhoRow_wordOk (today : Int) (row : List String) (se : ShuhoEntry)
    (hp : processShuhoRow today row = .ok (some se))
    (hty : cell row 2 = "翻訳" ∨ cell row 2 = "英文チェック")
    (h4 : cell row 2 = "翻訳" → wordFieldShape (cell row 4) = true)
    (h3 : cell row 2 = "英文チェック" → wordFieldShape (cell row 3) = true) :
    isNonNegNumeral (getShuhoEntryWordCount se) = true := by
  obtain ⟨ht, hc, hw⟩ := processShuhoRow_fields today row se hp
  rcases hty with hty | hty
  · have : getShuhoEntryWordCount se = se.STWordCount := by
      unfold getShuhoEntryWordCount
      rw [ht, hty]
      rfl
    rw [this, hw]
    exact wordFieldShape_numeral _ (h4 hty)
  · have : getShuhoEntryWordCount se = se.SCWordCount := by
      unfold getShuhoEntryWordCount
      rw [ht, hty]
      rfl
    rw [this, hc]
    exact wordFieldShape_numeral _ (h3 hty)

/-- Word-count parsability over one work-log sheet. -/
theorem parseShuhoRows_wordOk (today : Int) (rows : List (List String))
    (h : ∀ row ∈ rows,
      (cell row 2 = "翻訳" ∨ cell row 2 = "英文チェック") ∧
      (cell row 2 = "翻訳" → wordFieldShape (cell row 4) = true) ∧
      (cell row 2 = "英文チェック" → wordFieldShape (cell row 3) = true)) :
    ∀ es, parseShuhoRows today rows = .ok es →
      ∀ e ∈ es, isNonNegNumeral (getShuhoEntryWordCount e) = true := by
  induction rows with
  | nil =>
    intro es hes e he
    simp only [parseShuhoRows, Except.ok.injEq] at hes
    subst hes
    simp at he
  | cons row rest ih =>
    intro es hes e he
    unfold parseShuhoRows at hes
    cases hp : processShuhoRow today row with
    | error u => rw [hp] at hes; simp at hes
    | ok o =>
      rw [hp] at hes
      cases o with
      | none => exact ih (fun r hr => h r (by simp [hr])) es hes e he
      | some se =>
        cases hr : parseShuhoRows today rest with
        | error u => rw [hr] at hes; simp at hes
        | ok es2 =>
          rw [hr] at hes
          simp only [Except.ok.injEq] at hes
          subst hes
          rcases List.mem_cons.mp he with he1 | he2
          · subst he1
            obtain ⟨hty, h4, h3⟩ := h row (by simp)
            exact shuhoRow_wordOk today row e hp hty h4 h3
          · exact ih (fun r hr => h r (by simp [hr])) es2 hr e he2

/-- Word-count parsability over a list of work-log sheets. -/
theorem parseShuhoSheetsAux_wordOk (today : Int) (sheets : List (List (List String)))
    (h : ∀ sheet ∈ sheets, ∀ row ∈ sheet,
      (cell row 2 = "翻訳" ∨ cell row 2 = "英文チェック") ∧
      (cell row 2 = "翻訳" → wordFieldShape (cell row 4) = true) ∧
      (cell row 2 = "英文チェック" → wordFieldShape (cell row 3) = true)) :
    ∀ es, parseShuhoSheetsAux today sheets = .ok es →
      ∀ e ∈ es, isNonNegNumeral (getShuhoEntryWordCount e) = true := by
  induction sheets with
  | nil =>
    intro es hes e he
    simp only [parseShuhoSheetsAux, Except.ok.injEq] at hes
    subst hes
    simp at he
  | cons sheet rest ih =>
    intro es hes e he
    unfold parseShuhoSheetsAux at hes
    cases hp : parseShuhoRows today sheet with
    | error u => rw [hp] at hes; simp at hes
    | ok es1 =>
      rw [hp] at hes
      cases hr : parseShuhoSheetsAux today rest with
      | error u => rw [hr] at hes; simp at hes
      | ok es2 =>
        rw [hr] at hes
        simp only [Except.ok.injEq] at hes
        subst hes
        rcases List.mem_append.mp he with he1 | he2
        · exact parseShuhoRows_wordOk today sheet (h sheet (by simp)) es1 hp e he1
        · exact ih (fun sh hs => h sh (by simp [hs])) es2 hr e he2

/-! ## Claim theorems -/

/-- Claim C1 (code bug evidence).  The duplicate check is claimed to
succeed iff every ledger signature occurs exactly once; in the code
the test `copies != 1` sits after the loop, so only the final
element's count is consulted.  On the ledger `[dupA, dupA2, uniqB]`
the signature of `dupA` occurs twice, yet the check reports success
and surfaces nothing. -/
theorem ensureNoDuplicate_misses_duplicates :
    countSig [dupA, dupA2, uniqB] dupA.signature = 2 ∧
    ensureNoDuplicateInvoiceEntries [dupA, dupA2, uniqB] = (true, none) := by
  decide

/-- Claim C2 (code bug evidence).  `checkForEmptyCase` returns
`match && (caseField == "")`, which no string satisfies, so the
placeholder case number ALP- is never rejected: a fully valid ledger
row and log row with case ALP- are both normalized into their sets. -/
theorem placeholder_rows_are_kept :
    checkForEmptyCase "ALP-" = false ∧
    (parseInvoice todayJun30 [alpLedgerRow]).toOption.map
        (fun es => es.map (fun e => e.ICaseNum)) = some ["ALP-"] ∧
    (parseShuho todayJun30 [[], [alpLogRow]]).toOption.map
        (fun es => es.map (fun e => e.SCaseNum)) = some ["ALP-"] := by
  refine ⟨by decide, by decide, by decide⟩

/-- Claim C3 (counterexample).  Normalization does not validate word
counts: the ledger row with word-count cell abc is accepted, and the
resulting entry's WordCount does not parse as a number. -/
theorem wordCount_not_number_counterexample :
    (parseInvoice todayJun30 [["1", "A", "翻訳", "01-02-23", "abc", "18"]]).toOption.map
        (fun es => es.map (fun e => e.IWordCount)) = some ["abc"] ∧
    isNonNegNumeral "abc" = false := by
  refine ⟨by decide, by decide⟩

/-- Claim C3 (amended).  If every raw ledger word-count cell consists
of digits, commas and spaces with at least one digit, and every raw
log row (on the scanned sheets) has a recognized work type whose
selected word-count cell has that shape, then every normalized
entry's resolved word count parses as a finite non-negative number.
Without these input-shape guarantees the property fails (see the
counterexample): the code stores the stripped raw text unvalidated. -/
theorem wordCount_numeral_of_shape (today : Int)
    (rows : List (List String)) (sheets : List (List (List String)))
    (hinv : ∀ row ∈ rows, wordFieldShape (cell row 4) = true)
    (hsh : ∀ sheet ∈ sheets.drop 1, ∀ row ∈ sheet,
      (cell row 2 = "翻訳" ∨ cell row 2 = "英文チェック") ∧
      (cell row 2 = "翻訳" → wordFieldShape (cell row 4) = true) ∧
      (cell row 2 = "英文チェック" → wordFieldShape (cell row 3) = true)) :
    (∀ es, parseInvoice today rows = .ok es →
      ∀ e ∈ es, isNonNegNumeral e.IWordCount = true) ∧
    (∀ es, parseShuho today sheets = .ok es →
      ∀ e ∈ es, isNonNegNumeral (getShuhoEntryWordCount e) = true) :=
  ⟨parseInvoice_wordShape today rows hinv,
   fun es hes => parseShuhoSheetsAux_wordOk today (sheets.drop 1) hsh es hes⟩

/-- Claim C3 (witness): the amended theorem applied to a concrete
well-shaped ledger row, whose normalized word count 1000 parses. -/
theorem wordCount_numeral_of_shape_witness : isNonNegNumeral "1000" = true := by
  have h := (wordCount_numeral_of_shape todayJun30
    [["1", "A", "翻訳", "01-02-23", "1,000 ", "18"]] [[]]
    (by decide) (by decide)).1
  exact h [{ rowNum := "1", IDate := daysFromCivil 2023 1 2, ICaseNum := "A",
             IType := "翻訳", IWordCount := "1000", rate := "18" }]
    (by rfl)
    { rowNum := "1", IDate := daysFromCivil 2023 1 2, ICaseNum := "A",
      IType := "翻訳", IWordCount := "1000", rate := "18" }
    (by simp)

/-- Claim C4 (counterexample).  The scope filter reads the dates of
the first and last list elements, not the earliest and latest dates:
on the unsorted ledger `[ledgerLate, ledgerEarly]` (dates 10 and 5)
a log entry dated 5 lies strictly inside the claimed window
(earliest − 1, latest + 1) yet is dropped. -/
theorem getScopedShuho_not_earliest_latest :
    specEarliestDate [ledgerLate, ledgerEarly] = some 5 ∧
    specLatestDate [ledgerLate, ledgerEarly] = some 10 ∧
    (5 - 1 < logEarly.dateOf ∧ logEarly.dateOf < 10 + 1) ∧
    getScopedShuho [logEarly] [ledgerLate, ledgerEarly] = some [] := by
  decide

/-- Claim C4 (amended).  For a non-empty ledger list, the scope
filter retains exactly those log entries whose date is strictly after
(date of the FIRST ledger entry − 1 day) and strictly before (date of
the LAST ledger entry + 1 day), i.e. lies between those two dates
inclusive; when the ledger is sorted ascending these coincide with
the earliest and latest dates and the claimed boundary behavior
follows. -/
theorem getScopedShuho_firstLast (sentries ientries : List Entry) (h : ientries ≠ []) :
    getScopedShuho sentries ientries =
      some (sentries.filter (fun x =>
        decide ((ientries.head h).dateOf ≤ x.dateOf ∧
                x.dateOf ≤ (ientries.getLast h).dateOf))) := by
  match ientries, h with
  | e :: rest, h =>
    simp only [getScopedShuho, List.head_cons, Option.some.injEq]
    apply List.filter_congr
    intro x _
    rw [List.getLast_eq_getLastD]
    rw [← Bool.decide_and, decide_eq_decide]
    omega

/-- Claim C4 (witness): on the sorted ledger `[ledgerEarly, ledgerLate]`
the log entry dated exactly on the first (earliest) date is
retained. -/
theorem getScopedShuho_firstLast_witness :
    getScopedShuho [logEarly] [ledgerEarly, ledgerLate] = some [logEarly] := by
  rw [getScopedShuho_firstLast [logEarly] [ledgerEarly, ledgerLate] (by decide)]
  decide

/-- Claim C5 (counterexample).  On the ledger `[rateBadE, rateGoodE]`
the rate check fails (one mismatch) but the entry it surfaces is
`rateGoodE`, the final list element, which is not a mismatching
entry; the claim says the last mismatching entry (`rateBadE`) is
surfaced. -/
theorem ensureRates_surfaces_last_element :
    ensureRatesAreCorrect [rateBadE, rateGoodE] = (false, some rateGoodE) ∧
    rateEntryBad rateGoodE = false ∧ rateEntryBad rateBadE = true ∧
    rateGoodE ≠ rateBadE := by
  decide

/-- Claim C5 (amended).  The rate check succeeds iff no ledger entry
has rate 18 with a type other than translation and none has rate 1.4
with a type other than check (other rates never count); on failure
the single entry surfaced is the FINAL entry of the ledger list,
which need not itself mismatch. -/
theorem ensureRatesAreCorrect_spec (entries : List Entry) :
    ((ensureRatesAreCorrect entries).1 = true ↔
      ∀ e ∈ entries, (e.rateStr = "18" → e.etype = "翻訳") ∧
        (e.rateStr = "1.4" → e.etype = "英文チェック")) ∧
    ((ensureRatesAreCorrect entries).1 = false →
      (ensureRatesAreCorrect entries).2 = entries.getLast?) := by
  constructor
  · by_cases h : entries.countP rateEntryBad = 0
    · simp only [ensureRatesAreCorrect, h]
      constructor
      · intro _ e he
        have hb : rateEntryBad e = false := by
          simpa using List.countP_eq_zero.mp h e he
        exact (rateEntryBad_false_iff e).mp hb
      · intro _; rfl
    · simp only [ensureRatesAreCorrect]
      have hfalse : (entries.countP rateEntryBad == 0) = false := by
        simpa using h
      simp only [hfalse, Bool.false_eq_true, if_false]
      constructor
      · intro hh; exact absurd hh (by simp)
      · intro hall
        exfalso
        apply h
        apply List.countP_eq_zero.mpr
        intro e he
        simp [(rateEntryBad_false_iff e).mpr (hall e he)]
  · intro hfail
    by_cases h : entries.countP rateEntryBad = 0
    · simp [ensureRatesAreCorrect, h] at hfail
    · have hfalse : (entries.countP rateEntryBad == 0) = false := by simpa using h
      simp [ensureRatesAreCorrect, hfalse]

/-- Claim C5 (witness): the amended characterization applied to the
compliant singleton ledger `[rateGoodE]`. -/
theorem ensureRatesAreCorrect_spec_witness :
    (ensureRatesAreCorrect [rateGoodE]).1 = true :=
  (ensureRatesAreCorrect_spec [rateGoodE]).1.mpr (by decide)

/-- Claim C6 (confirmed).  Given a non-empty ledger list (the
scoping precondition, claim C9), the log-in-ledger check reports an
individual error for exactly those scoped log entries whose
signature count among ledger entries differs from one, and announces
success iff every scoped log entry's count is exactly one; the
function always returns (it never exits the process). -/
theorem ensureShuhoEntriesAreInShuho_spec (sentries ientries : List Entry)
    (h : ientries ≠ []) :
    ∃ sse, getScopedShuho sentries ientries = some sse ∧
      ensureShuhoEntriesAreInShuho sentries ientries =
        some (sse.filter (fun se => !(countSig ientries se.signature == 1)),
              decide (∀ se ∈ sse, countSig ientries se.signature = 1)) := by
  match ientries, h with
  | e :: rest, h =>
    refine ⟨_, rfl, ?_⟩
    unfold ensureShuhoEntriesAreInShuho
    simp only [getScopedShuho, Option.map_some']
    rw [errsLength_eq_decide]

/-- Claim C6 (witness): on a matching one-entry ledger and log the
check reports no errors and succeeds. -/
theorem ensureShuhoEntriesAreInShuho_spec_witness :
    ensureShuhoEntriesAreInShuho [logEarly] [ledgerEarly] = some ([], true) := by
  obtain ⟨sse, h1, h2⟩ := ensureShuhoEntriesAreInShuho_spec [logEarly] [ledgerEarly] (by decide)
  have hg : getScopedShuho [logEarly] [ledgerEarly] = some [logEarly] := by decide
  rw [hg] at h1
  injection h1 with h1
  subst h1
  rw [h2]
  decide

/-- Claim C7 (confirmed).  For a partial month/day date and a fixed
reference date, the year heuristic compares the candidate's ordinal
day-of-year (computed on the parsed date, which carries year 0) with
the ordinal day-of-year of today + 7 days: on or before the anchor
gives the current year, otherwise the anchor's year minus one; in a
year-end rollover, when the anchor's year is the current year plus
one, the otherwise-branch therefore assigns the current year. -/
theorem thisYearOrLastYear_spec (today m d : Int) :
    (thisYearOrLastYear today m d =
      if yearDayCivil 0 m d ≤ yearDayOf (today + 7)
      then daysFromCivil (yearOf today) m d
      else daysFromCivil (yearOf (today + 7) - 1) m d) ∧
    (yearOf (today + 7) = yearOf today + 1 →
      ¬ yearDayCivil 0 m d ≤ yearDayOf (today + 7) →
      thisYearOrLastYear today m d = daysFromCivil (yearOf today) m d) := by
  constructor
  · by_cases h : yearDayCivil 0 m d ≤ yearDayOf (today + 7) <;>
      simp [thisYearOrLastYear, h]
  · intro hyr hcond
    have h1 : yearOf (today + 7) - 1 = yearOf today := by omega
    simp [thisYearOrLastYear, hcond, h1]

/-- Claim C7 (witness): at the rollover reference date 2023-12-28
(anchor 2024-01-04), candidate 12/30 falls in the otherwise-branch
and is assigned the current year 2023. -/
theorem thisYearOrLastYear_spec_witness :
    thisYearOrLastYear (daysFromCivil 2023 12 28) 12 30 = daysFromCivil 2023 12 30 := by
  have h := (thisYearOrLastYear_spec (daysFromCivil 2023 12 28) 12 30).2
    (by decide) (by decide)
  rw [h]
  decide

/-- Claim C8 (counterexample).  Signatures are space-joined strings,
so two entries with different case numbers and types can share a
signature when a field contains a space: (case a-space-b, type c) and
(case a, type b-space-c) with equal word counts collide. -/
theorem signature_collision_counterexample :
    Entry.signature spacedCase = Entry.signature plainCase ∧
    ¬(Entry.caseNum spacedCase = Entry.caseNum plainCase ∧
      Entry.etype spacedCase = Entry.etype plainCase ∧
      Entry.wordCount spacedCase = Entry.wordCount plainCase) := by
  decide

/-- Claim C8 (amended).  Equality of the three fields (case number,
work type, resolved word count) always implies equal signatures — in
particular two entries differing only in date have equal signatures —
and, provided the case numbers and work types of both entries contain
no space character, signatures are equal iff the three fields are
pairwise equal.  Without the no-space proviso only the forward
direction holds (see the counterexample). -/
theorem signature_eq_iff (e1 e2 : Entry) :
    ((e1.caseNum = e2.caseNum ∧ e1.etype = e2.etype ∧ e1.wordCount = e2.wordCount) →
      e1.signature = e2.signature) ∧
    ((∀ c ∈ e1.caseNum.data, c ≠ ' ') → (∀ c ∈ e1.etype.data, c ≠ ' ') →
     (∀ c ∈ e2.caseNum.data, c ≠ ' ') → (∀ c ∈ e2.etype.data, c ≠ ' ') →
      (e1.signature = e2.signature ↔
        (e1.caseNum = e2.caseNum ∧ e1.etype = e2.etype ∧ e1.wordCount = e2.wordCount))) := by
  have hfwd : (e1.caseNum = e2.caseNum ∧ e1.etype = e2.etype ∧ e1.wordCount = e2.wordCount) →
      e1.signature = e2.signature := by
    rintro ⟨h1, h2, h3⟩
    rw [signature_eq_proj, signature_eq_proj, h1, h2, h3]
  refine ⟨hfwd, ?_⟩
  intro ha1 ht1 ha2 ht2
  constructor
  · intro hsig
    have hd := congrArg String.data hsig
    rw [signature_data, signature_data] at hd
    obtain ⟨hc, hrest⟩ := noSpace_append_inj _ _ _ _ ha1 ha2 hd
    obtain ⟨hty, hwc⟩ := noSpace_append_inj _ _ _ _ ht1 ht2 hrest
    exact ⟨String.ext hc, String.ext hty, String.ext hwc⟩
  · exact hfwd

/-- Claim C8 (witness): the two directions applied to `sigW1` and
`sigW2`, which agree on the three fields and differ only in date. -/
theorem signature_eq_iff_witness :
    Entry.signature sigW1 = Entry.signature sigW2 ∧
    (Entry.caseNum sigW1 = Entry.caseNum sigW2 ∧
     Entry.etype sigW1 = Entry.etype sigW2 ∧
     Entry.wordCount sigW1 = Entry.wordCount sigW2) :=
  ⟨(signature_eq_iff sigW1 sigW2).1 (by decide),
   ((signature_eq_iff sigW1 sigW2).2 (by decide) (by decide) (by decide) (by decide)).mp
     (by decide)⟩

/-- Claim C9 (confirmed).  The scope filter is undefined on an empty
ledger list (the unconditional index accesses panic, modelled by
`none`); a ledger source with zero valid rows makes `parseInvoice`
return its non-nil empty slice (`some []`, never the nil `none`),
which passes the nil test in `main`, so the run reaches the failing
index accesses. -/
theorem emptyLedger_reaches_scope_panic :
    (∀ sentries : List Entry, getScopedShuho sentries [] = none) ∧
    (∀ today : Int, parseInvoiceSlice today [["", "", "", "", "", ""]] = .ok (some [])) ∧
    mainNilGuard (some []) = false :=
  ⟨fun _ => rfl, fun _ => rfl, rfl⟩

